import Mathlib

/-!
Verification of the argument-parsing and table-rendering core of
CheckpointTools (`src/base/argument.cpp` / `argument.h` and
`src/base/table.cpp` / `table.h`).

Strings are modelled as lists of characters (`Str`).  The C++ classes
`Argument` and `Table` are shallowly embedded: each method becomes a pure
Lean function that mirrors the statements of the corresponding C++ body.
-/

/-- Model of `std::string` / `StringView`: a list of characters. -/
abbrev Str := List Char

/-- Model of `StringView::starts_with`. -/
def startsWith (s pre : Str) : Bool :=
  pre.isPrefixOf s

/-- Model of `curr.find('=')`: index of the first `'='`, if any
(`StringView::npos` becomes `none`). -/
def find_eq : Str → Option Nat
  | [] => none
  | c :: rest => if c = '=' then some 0 else (find_eq rest).map (fun n => n + 1)

/-- The four data members of the C++ class `Argument`
(`_name`, `_value`, `_valueIsEmbedded`, `_valueExistsAndNotConsumed`). -/
structure Argument where
  name : Str
  value : Str
  valueIsEmbedded : Bool
  valueExistsAndNotConsumed : Bool
deriving Repr, DecidableEq

/-- Model of the constructor `Argument::Argument(int i, int argc, char* argv[])`,
with `curr = argv[i]` and `next` the guarded lookahead
(`(i+1) < argc ? argv[i+1] : ""`).  The three steps mirror the C++ body:
tentative name/value, embedded `=` extraction for `--` tokens, and the
forced empty value for non-option tokens. -/
def Argument.make (curr next : Str) : Argument :=
  let base : Argument :=
    { name := curr
      value := if startsWith next ['-'] then [] else next
      valueIsEmbedded := false
      valueExistsAndNotConsumed := false }
  let withEmbedded : Argument :=
    if startsWith curr ['-', '-'] then
      match find_eq curr with
      | some it =>
          { name := curr.take it
            value := curr.drop (it + 1)
            valueIsEmbedded := true
            valueExistsAndNotConsumed := true }
      | none => base
    else base
  if startsWith curr ['-'] then withEmbedded
  else { withEmbedded with value := [] }

/-- Model of constructing `Argument{i, argc, argv}` from the full argument
vector: `curr` is `argv[i]`, `next` is `argv[i+1]` only when `i+1 < argc`. -/
def Argument.ofArgv (argv : List Str) (i : Nat) : Argument :=
  Argument.make (argv.getD i [])
    (if i + 1 < argv.length then argv.getD (i + 1) [] else [])

/-- Model of `Argument::value(int& i)`: returns the stored value, the updated
index (incremented exactly when the value is not embedded), and the updated
argument state (consumption flag cleared). -/
def Argument.value' (a : Argument) (i : Nat) : Str × Nat × Argument :=
  let i' := if a.valueIsEmbedded then i else i + 1
  (a.value, i', { a with valueExistsAndNotConsumed := false })

/-- Model of `Argument::has_value()`. -/
def Argument.has_value (a : Argument) : Bool :=
  !a.value.isEmpty

/-- Model of `Argument::was_value_consumed()`. -/
def Argument.was_value_consumed (a : Argument) : Bool :=
  !a.valueExistsAndNotConsumed

/-- Model of `Argument::is_option()`. -/
def Argument.is_option (a : Argument) : Bool :=
  startsWith a.name ['-']

/-- Model of `Argument::is(const char* name)`. -/
def Argument.is (a : Argument) (n : Str) : Bool :=
  a.name == n

--========================= TABLE EMBEDDING =========================--

/-- Model of `Table::Align`. -/
inductive Align
  | LEFT
  | RIGHT
  | CENTER
deriving Repr, DecidableEq

/-- The data members of the C++ class `Table` (`_rows`, `_numberOfColumns`,
`_columnAlignments`, `_minColumnWidths`, `_maxColumnWidths`, `_colorizer`).
Widths are `int` in C++, hence `Int` here. -/
structure Table where
  rows : List (List Str)
  numberOfColumns : Nat
  columnAlignments : List Align
  minColumnWidths : List Int
  maxColumnWidths : List Int
  colorizer : Option (Nat → Str → Str)

/-- A default-constructed `Table`. -/
def Table.new : Table :=
  { rows := []
    numberOfColumns := 0
    columnAlignments := []
    minColumnWidths := []
    maxColumnWidths := []
    colorizer := none }

/-- Model of `Table::add_row`. -/
def Table.add_row (t : Table) (row : List Str) : Table :=
  { t with
    rows := t.rows ++ [row]
    numberOfColumns := max t.numberOfColumns row.length }

/-- Model of `Table::clear`. -/
def Table.clear (t : Table) : Table :=
  { t with rows := [], numberOfColumns := 0 }

/-- Model of `Table::set_alignments`. -/
def Table.set_alignments (t : Table) (al : List Align) : Table :=
  { t with columnAlignments := al }

/-- Model of `Table::set_min_widths`. -/
def Table.set_min_widths (t : Table) (ws : List Int) : Table :=
  { t with minColumnWidths := ws }

/-- Model of `Table::set_max_widths`. -/
def Table.set_max_widths (t : Table) (ws : List Int) : Table :=
  { t with maxColumnWidths := ws }

/-- Model of `Table::set_colorizer`. -/
def Table.set_colorizer (t : Table) (c : Nat → Str → Str) : Table :=
  { t with colorizer := some c }

/-- Model of `widths.resize(row.size(), 0)` guarded by
`row.size() > widths.size()`: pad the width vector with zeros up to `n`. -/
def growTo (ws : List Int) (n : Nat) : List Int :=
  if n > ws.length then ws ++ List.replicate (n - ws.length) 0 else ws

/-- Model of the inner loop of `_calculate_column_widths`:
`for column in [0, row.size()): widths[column] = max(widths[column], textLength)`.
The width vector is at least as long as the row (ensured by `growTo`). -/
def updateCells : List Int → List Str → List Int
  | ws, [] => ws
  | [], _ :: _ => []
  | w :: ws, cell :: row => max w ((cell.length : Int)) :: updateCells ws row

/-- One iteration of the row loop of `_calculate_column_widths`. -/
def updateWidthsWithRow (ws : List Int) (row : List Str) : List Int :=
  updateCells (growTo ws row.length) row

/-- Model of the clamping loop of `_calculate_column_widths`:
`for i in [0, min(widths.size, maxWidths.size)): if maxWidth > 0 then
widths[i] = min(widths[i], maxWidth)`. -/
def clampCells : List Int → List Int → List Int
  | ws, [] => ws
  | [], _ :: _ => []
  | w :: ws, m :: ms => (if 0 < m then min w m else w) :: clampCells ws ms

/-- Model of `Table::_calculate_column_widths`. -/
def Table.calculate_column_widths (t : Table) : List Int :=
  if t.rows.isEmpty then []
  else clampCells (t.rows.foldl updateWidthsWithRow t.minColumnWidths) t.maxColumnWidths

/-- Model of `std::format` with a field width: `{:<{}}`, `{:>{}}` and `{:^{}}`
pad with spaces to `width` (no truncation; for `^` the extra fill character
goes to the right). -/
def alignCell (a : Align) (width : Nat) (text : Str) : Str :=
  let pad := width - text.length
  match a with
  | Align.LEFT => text ++ List.replicate pad ' '
  | Align.RIGHT => List.replicate pad ' ' ++ text
  | Align.CENTER =>
      List.replicate (pad / 2) ' ' ++ text ++ List.replicate (pad - pad / 2) ' '

/-- Model of `_colorizer ? _colorizer(i, text) : text`. -/
def applyColorizer (colorizer : Option (Nat → Str → Str)) (i : Nat) (text : Str) : Str :=
  match colorizer with
  | some f => f i text
  | none => text

/-- Model of the body of the cell loop of `Table::_print_row`: the width is
`columnWidths[i]` when in range else `0`; a width `<= 0` prints the text
verbatim (possibly colorized); otherwise the text is aligned to the width
(alignment `columnAlignments[i]` when in range else `LEFT`) and colorized. -/
def cellText (colorizer : Option (Nat → Str → Str)) (widths : List Int)
    (aligns : List Align) (i : Nat) (text : Str) : Str :=
  let width : Int := if i < widths.length then widths.getD i 0 else 0
  if width ≤ 0 then applyColorizer colorizer i text
  else
    let al := if i < aligns.length then aligns.getD i Align.LEFT else Align.LEFT
    applyColorizer colorizer i (alignCell al width.toNat text)

/-- Model of `Table::_print_row`: cells separated by a single space,
terminated by `std::endl`. -/
def print_row (colorizer : Option (Nat → Str → Str)) (row : List Str)
    (widths : List Int) (aligns : List Align) : Str :=
  ((row.mapIdx (fun i text => cellText colorizer widths aligns i text)).intersperse
      [' ']).flatten ++ ['\n']

/-- Model of `Table::print`: nothing for an empty table, otherwise the
column widths are computed freshly and every row is printed. -/
def Table.print (t : Table) : Str :=
  if t.rows.isEmpty then []
  else
    let widths := t.calculate_column_widths
    (t.rows.map (fun row => print_row t.colorizer row widths t.columnAlignments)).flatten

/-- Model of `print(std::ostream& out)` viewed as appending to the stream
contents `out`. -/
def Table.printTo (t : Table) (out : Str) : Str :=
  out ++ t.print

/-- The width formula stated by the spec for one column `c`: start from the
column's minimum width and widen by every cell present in column `c`
(this is `max(minWidth[c], max over rows of cell length)` with the
convention that the maximum over no cells leaves the base unchanged). -/
def colContentWidth (rows : List (List Str)) (base : Int) (c : Nat) : Int :=
  rows.foldl
    (fun w row => if c < row.length then max w ((row.getD c []).length : Int) else w)
    base

/-- Length of the longest cell present in column `c` (0 when none). -/
def maxCellLen (rows : List (List Str)) (c : Nat) : Int :=
  colContentWidth rows 0 c

--=================== CONCRETE INSTANCES FOR SCENARIOS ===================--

/-- The table of the spec scenario:
`add_row({"a","bb","ccc"}); add_row({"dddd","e"})` with default
configuration. -/
def tScenario : Table :=
  (Table.new.add_row ["a".toList, "bb".toList, "ccc".toList]).add_row
    ["dddd".toList, "e".toList]

/-- A one-row table whose single cell `aaa` is longer than the configured
maximum width 2 of column 0. -/
def tClamp : Table :=
  (Table.new.set_max_widths [2]).add_row ["aaa".toList]

/-- A one-row table used to exercise printing. -/
def tPure : Table := Table.new.add_row [['x']]

/-- The same table with a different cached column count: the printed output
must not depend on it. -/
def tPure' : Table := { tPure with numberOfColumns := 99 }

--========================= HELPER LEMMAS =========================--

theorem find_eq_cons_of_ne (c : Char) (l : Str) (h : c ≠ '=') :
    find_eq (c :: l) = (find_eq l).map (fun n => n + 1) := by
  simp [find_eq, h]

theorem find_eq_of_not_mem (l : Str) (h : '=' ∉ l) : find_eq l = none := by
  induction l with
  | nil => rfl
  | cons c l ih =>
    have h1 : c ≠ '=' := fun hc => h (hc ▸ List.mem_cons_self c l)
    have h2 : '=' ∉ l := fun hm => h (List.mem_cons_of_mem _ hm)
    rw [find_eq_cons_of_ne c l h1, ih h2]
    rfl

theorem find_eq_append (a b : Str) (h : '=' ∉ a) :
    find_eq (a ++ '=' :: b) = some a.length := by
  induction a with
  | nil => simp [find_eq]
  | cons c a ih =>
    have h1 : c ≠ '=' := fun hc => h (hc ▸ List.mem_cons_self c a)
    have h2 : '=' ∉ a := fun hm => h (List.mem_cons_of_mem _ hm)
    rw [List.cons_append, find_eq_cons_of_ne c _ h1, ih h2]
    simp

theorem find_eq_isSome_iff (l : Str) : (find_eq l).isSome = true ↔ '=' ∈ l := by
  induction l with
  | nil => simp [find_eq]
  | cons c l ih =>
    by_cases hc : c = '='
    · subst hc; simp [find_eq]
    · have hc' : ¬('=' = c) := fun hx => hc hx.symm
      rw [find_eq_cons_of_ne c l hc]
      cases hf : find_eq l <;>
        simp [hf] at ih ⊢ <;>
        simp [List.mem_cons, hc', ih]

theorem startsWith_cons_self (c : Char) (rest : Str) :
    startsWith (c :: rest) [c] = true := by
  simp [startsWith, List.isPrefixOf]

theorem startsWith_cons₂_self (c d : Char) (rest : Str) :
    startsWith (c :: d :: rest) [c, d] = true := by
  simp [startsWith, List.isPrefixOf]

theorem startsWith_dash_of_dashdash (l : Str) (h : startsWith l ['-', '-'] = true) :
    startsWith l ['-'] = true := by
  match l with
  | [] => simp [startsWith, List.isPrefixOf] at h
  | c :: rest =>
    simp [startsWith, List.isPrefixOf] at h ⊢
    exact h.1

/-- The two boolean members of `Argument` are set together, exactly when the
token starts with `--` and contains `=`. -/
theorem make_embedded_eq (curr next : Str) :
    (Argument.make curr next).valueIsEmbedded
      = (startsWith curr ['-', '-'] && (find_eq curr).isSome) ∧
    (Argument.make curr next).valueExistsAndNotConsumed
      = (startsWith curr ['-', '-'] && (find_eq curr).isSome) := by
  unfold Argument.make
  cases h1 : startsWith curr ['-', '-']
  · cases h3 : startsWith curr ['-'] <;> simp [h1, h3]
  · cases h2 : find_eq curr <;> cases h3 : startsWith curr ['-'] <;> simp [h1, h2, h3]

-- Sanity checks of the embedding on the spec scenario
-- `["--depth", "3", "file.bin"]`.
example :
    (Argument.ofArgv [['-','-','d'], ['3'], ['f']] 0).name = ['-','-','d'] := by
  decide

example :
    ((Argument.ofArgv [['-','-','d'], ['3'], ['f']] 0).value' 0).1 = ['3'] := by
  decide

example :
    ((Argument.ofArgv [['-','-','d'], ['3'], ['f']] 0).value' 0).2.1 = 1 := by
  decide

example :
    (Argument.make ['-','-','a','=','b'] []).value = ['b'] := by
  decide

example :
    ((Argument.make ['-','-','a','=','b'] []).value' 7).2.1 = 7 := by
  decide

--========================= TABLE LEMMAS =========================--

theorem getD_replicate_zero (k j : Nat) : (List.replicate k (0 : Int)).getD j 0 = 0 := by
  induction k generalizing j with
  | zero => rfl
  | succ k ih =>
    cases j <;> simp [List.replicate, List.getD_cons_zero, List.getD_cons_succ, ih]

theorem getD_growTo (ws : List Int) (n c : Nat) : (growTo ws n).getD c 0 = ws.getD c 0 := by
  unfold growTo
  split
  · by_cases hc : c < ws.length
    · exact List.getD_append ws _ 0 c hc
    · rw [List.getD_append_right ws _ 0 c (by omega), getD_replicate_zero,
          List.getD_eq_default ws 0 (by omega)]
  · rfl

theorem length_growTo (ws : List Int) (n : Nat) :
    (growTo ws n).length = max ws.length n := by
  unfold growTo
  split <;> simp <;> omega

theorem length_updateCells : ∀ (row : List Str) (ws : List Int),
    row.length ≤ ws.length → (updateCells ws row).length = ws.length
  | [], ws, _ => by cases ws <;> rfl
  | _ :: _, [], h => by simp at h
  | cell :: row, w :: ws, h => by
    simp [updateCells, length_updateCells row ws (by simpa using h)]

theorem getD_updateCells : ∀ (row : List Str) (ws : List Int) (c : Nat),
    row.length ≤ ws.length →
    (updateCells ws row).getD c 0
      = if c < row.length then max (ws.getD c 0) ((row.getD c []).length : Int)
        else ws.getD c 0
  | [], ws, c, _ => by cases ws <;> simp [updateCells]
  | _ :: _, [], _, h => by simp at h
  | cell :: row, w :: ws, c, h => by
    cases c with
    | zero => simp [updateCells, List.getD_cons_zero]
    | succ c =>
      have ih := getD_updateCells row ws c (by simpa using h)
      simp only [updateCells, List.getD_cons_succ, ih, List.length_cons,
        Nat.add_lt_add_iff_right]

theorem getD_updateWidthsWithRow (ws : List Int) (row : List Str) (c : Nat) :
    (updateWidthsWithRow ws row).getD c 0
      = if c < row.length then max (ws.getD c 0) ((row.getD c []).length : Int)
        else ws.getD c 0 := by
  unfold updateWidthsWithRow
  rw [getD_updateCells row _ c (by rw [length_growTo]; omega), getD_growTo]

theorem getD_foldl_update : ∀ (rows : List (List Str)) (ws : List Int) (c : Nat),
    (rows.foldl updateWidthsWithRow ws).getD c 0 = colContentWidth rows (ws.getD c 0) c
  | [], _, _ => rfl
  | row :: rows, ws, c => by
    rw [List.foldl_cons, getD_foldl_update rows _ c, getD_updateWidthsWithRow]
    rfl

theorem length_clampCells : ∀ (ws ms : List Int), (clampCells ws ms).length = ws.length
  | ws, [] => by cases ws <;> rfl
  | [], _ :: _ => rfl
  | w :: ws, m :: ms => by simp [clampCells, length_clampCells ws ms]

theorem getD_clampCells : ∀ (ws ms : List Int) (c : Nat),
    (clampCells ws ms).getD c 0
      = if c < ws.length ∧ c < ms.length ∧ 0 < ms.getD c 0
        then min (ws.getD c 0) (ms.getD c 0) else ws.getD c 0
  | ws, [], c => by cases ws <;> simp [clampCells]
  | [], _ :: _, c => by simp [clampCells]
  | w :: ws, m :: ms, c => by
    cases c with
    | zero =>
      by_cases hm : 0 < m <;>
        simp [clampCells, List.getD_cons_zero, hm]
    | succ c =>
      have ih := getD_clampCells ws ms c
      simp only [clampCells, List.getD_cons_succ, ih, List.length_cons,
        Nat.add_lt_add_iff_right]

theorem le_colContentWidth (rows : List (List Str)) (base : Int) (c : Nat) :
    base ≤ colContentWidth rows base c := by
  induction rows generalizing base with
  | nil => exact le_refl base
  | cons r rows ih =>
    have hstep : base ≤
        (if c < r.length then max base ((r.getD c []).length : Int) else base) := by
      split
      · exact le_max_left _ _
      · exact le_refl base
    exact hstep.trans (ih _)

theorem cell_le_colContentWidth (rows : List (List Str)) (base : Int) (c : Nat)
    (row : List Str) (hrow : row ∈ rows) (hc : c < row.length) :
    ((row.getD c []).length : Int) ≤ colContentWidth rows base c := by
  induction rows generalizing base with
  | nil => cases hrow
  | cons r rows ih =>
    rcases List.mem_cons.mp hrow with h | h
    · subst h
      have h1 : ((row.getD c []).length : Int) ≤
          (if c < row.length then max base ((row.getD c []).length : Int) else base) := by
        rw [if_pos hc]; exact le_max_right _ _
      exact h1.trans (le_colContentWidth rows _ c)
    · exact ih _ h

theorem colContentWidth_le (rows : List (List Str)) (base : Int) (c : Nat) (N : Int)
    (hbase : base ≤ N)
    (hcells : ∀ row ∈ rows, c < row.length → ((row.getD c []).length : Int) ≤ N) :
    colContentWidth rows base c ≤ N := by
  induction rows generalizing base with
  | nil => exact hbase
  | cons r rows ih =>
    have hstep : (if c < r.length then max base ((r.getD c []).length : Int) else base)
        ≤ N := by
      split
      · exact max_le hbase (hcells r (List.mem_cons_self r rows) (by assumption))
      · exact hbase
    exact ih _ hstep (fun row hr hcc => hcells row (List.mem_cons_of_mem _ hr) hcc)

theorem exists_long_cell (rows : List (List Str)) (c : Nat) (N : Int) (hN : 0 ≤ N)
    (h : N < maxCellLen rows c) :
    ∃ row ∈ rows, c < row.length ∧ N < ((row.getD c []).length : Int) := by
  by_contra hcon
  push_neg at hcon
  have hle : maxCellLen rows c ≤ N :=
    colContentWidth_le rows 0 c N hN (fun row hr hc => hcon row hr hc)
  omega

--========================= CLAIM THEOREMS: ARGUMENT =========================--

/-- C1: for every token of the form `--name=value` (no `=` inside `name`),
the constructed `Argument` has `name() == "--name"`, `value(i)` returns
`"value"`, and the caller's index `i` is left unchanged by `value(i)`,
whatever the lookahead token is. -/
theorem argument_embedded_form (nm vl next : Str) (h : '=' ∉ nm) (i : Nat) :
    (Argument.make ('-' :: '-' :: (nm ++ '=' :: vl)) next).name = '-' :: '-' :: nm ∧
    ((Argument.make ('-' :: '-' :: (nm ++ '=' :: vl)) next).value' i).1 = vl ∧
    ((Argument.make ('-' :: '-' :: (nm ++ '=' :: vl)) next).value' i).2.1 = i := by
  have hf : find_eq ('-' :: '-' :: (nm ++ '=' :: vl)) = some (nm.length + 2) := by
    rw [find_eq_cons_of_ne _ _ (by decide), find_eq_cons_of_ne _ _ (by decide),
        find_eq_append nm vl h]
    rfl
  have htake : ('-' :: '-' :: (nm ++ '=' :: vl)).take (nm.length + 2)
      = '-' :: '-' :: nm := by
    rw [show nm.length + 2 = nm.length + 1 + 1 from rfl, List.take_succ_cons,
        List.take_succ_cons, List.take_left]
  have hdrop : ('-' :: '-' :: (nm ++ '=' :: vl)).drop (nm.length + 2 + 1) = vl := by
    rw [show nm.length + 2 + 1 = nm.length + 1 + 1 + 1 from rfl, List.drop_succ_cons,
        List.drop_succ_cons,
        show nm ++ '=' :: vl = (nm ++ ['=']) ++ vl by simp,
        show nm.length + 1 = (nm ++ ['=']).length by simp, List.drop_left]
  have hsw2 : startsWith ('-' :: '-' :: (nm ++ '=' :: vl)) ['-', '-'] = true :=
    startsWith_cons₂_self '-' '-' _
  have hsw1 : startsWith ('-' :: '-' :: (nm ++ '=' :: vl)) ['-'] = true :=
    startsWith_cons_self '-' _
  simp [Argument.make, hsw2, hsw1, hf, htake, hdrop, Argument.value']

/-- C1 witness: `--n=v` at index 5. -/
theorem argument_embedded_form_witness :
    (Argument.make ['-','-','n','=','v'] []).name = ['-','-','n'] ∧
    ((Argument.make ['-','-','n','=','v'] []).value' 5).1 = ['v'] ∧
    ((Argument.make ['-','-','n','=','v'] []).value' 5).2.1 = 5 :=
  argument_embedded_form ['n'] ['v'] [] (by decide) 5

/-- C2: for an adjacent pair `("--name", value)` where `value` does not start
with `-` and `--name` contains no `=`, the `Argument` constructed at the
first token has `name() == "--name"`, and `value(i)` returns the next token
and increments `i` by exactly 1. -/
theorem argument_separate_value (nm next : Str) (hq : '=' ∉ nm)
    (hn : startsWith next ['-'] = false) (i : Nat) :
    (Argument.make ('-' :: '-' :: nm) next).name = '-' :: '-' :: nm ∧
    ((Argument.make ('-' :: '-' :: nm) next).value' i).1 = next ∧
    ((Argument.make ('-' :: '-' :: nm) next).value' i).2.1 = i + 1 := by
  have hf : find_eq ('-' :: '-' :: nm) = none := by
    apply find_eq_of_not_mem
    simp only [List.mem_cons, not_or]
    exact ⟨by decide, by decide, hq⟩
  have hsw2 : startsWith ('-' :: '-' :: nm) ['-', '-'] = true :=
    startsWith_cons₂_self '-' '-' nm
  have hsw1 : startsWith ('-' :: '-' :: nm) ['-'] = true :=
    startsWith_cons_self '-' ('-' :: nm)
  simp [Argument.make, hsw2, hsw1, hf, hn, Argument.value']

/-- C2 witness: `--n` followed by `v` at index 3. -/
theorem argument_separate_value_witness :
    (Argument.make ['-','-','n'] ['v']).name = ['-','-','n'] ∧
    ((Argument.make ['-','-','n'] ['v']).value' 3).1 = ['v'] ∧
    ((Argument.make ['-','-','n'] ['v']).value' 3).2.1 = 3 + 1 :=
  argument_separate_value ['n'] ['v'] (by decide) (by decide) 3

/-- C5: `was_value_consumed()` is `false` exactly when the token had an
embedded `--name=value` form at construction (starts with `--` and contains
`=`); any call to `value(i)` makes it `true`; for all other tokens it is
`true` from construction onward. -/
theorem argument_consumed_protocol (curr next : Str) (i : Nat) :
    ((Argument.make curr next).was_value_consumed = false ↔
      startsWith curr ['-', '-'] = true ∧ '=' ∈ curr) ∧
    ((Argument.make curr next).value' i).2.2.was_value_consumed = true := by
  have hm := (make_embedded_eq curr next).2
  constructor
  · rw [Argument.was_value_consumed, hm]
    simp [find_eq_isSome_iff]
  · simp [Argument.value', Argument.was_value_consumed]

/-- C6: a positional token (not starting with `-`) yields an `Argument` with
empty value regardless of the lookahead token, `is_option() == false`, and
the whole token as its name. -/
theorem argument_positional (curr next : Str) (h : startsWith curr ['-'] = false) :
    (Argument.make curr next).value = [] ∧
    (Argument.make curr next).is_option = false ∧
    (Argument.make curr next).name = curr := by
  have h2 : startsWith curr ['-', '-'] = false := by
    cases hsw : startsWith curr ['-', '-']
    · rfl
    · rw [startsWith_dash_of_dashdash curr hsw] at h
      exact absurd h (by simp)
  simp [Argument.make, h, h2, Argument.is_option]

/-- C6 witness: token `f` followed by `-x`. -/
theorem argument_positional_witness :
    (Argument.make ['f'] ['-','x']).value = [] ∧
    (Argument.make ['f'] ['-','x']).is_option = false ∧
    (Argument.make ['f'] ['-','x']).name = ['f'] :=
  argument_positional ['f'] ['-','x'] (by decide)

/-- C8: the tokens `-` and `--` are still option-like (`is_option()` is
`true`, and the `=`-search on them is total by construction), and at the
final index the constructor behaves exactly as if the lookahead token were
the empty string: it never reads past the end of the argument list. -/
theorem argument_edge_safety (next : Str) (argv : List Str) (i : Nat)
    (h : argv.length ≤ i + 1) :
    (Argument.make ['-'] next).is_option = true ∧
    (Argument.make ['-', '-'] next).is_option = true ∧
    Argument.ofArgv argv i = Argument.make (argv.getD i []) [] := by
  refine ⟨rfl, rfl, ?_⟩
  rw [Argument.ofArgv, if_neg (by omega)]

/-- C8 witness: single-token list `["--"]` at its final index 0. -/
theorem argument_edge_safety_witness :
    (Argument.make ['-'] ['x']).is_option = true ∧
    (Argument.make ['-', '-'] ['x']).is_option = true ∧
    Argument.ofArgv [['-', '-']] 0 = Argument.make ([['-', '-']].getD 0 []) [] :=
  argument_edge_safety ['x'] [['-', '-']] 0 (by decide)

/-- C10: `value(i)` increments `i` by exactly 1 whenever the value is not
embedded (including valueless flags, where the stored value is empty), and
leaves `i` unchanged exactly when the token had the embedded `--name=value`
form. -/
theorem argument_cursor_advance (curr next : Str) (i : Nat) :
    ((Argument.make curr next).valueIsEmbedded = true ↔
      startsWith curr ['-', '-'] = true ∧ '=' ∈ curr) ∧
    ((Argument.make curr next).value' i).2.1
      = (if (Argument.make curr next).valueIsEmbedded then i else i + 1) ∧
    (((Argument.make curr next).value' i).2.1 = i ↔
      startsWith curr ['-', '-'] = true ∧ '=' ∈ curr) := by
  have hm := (make_embedded_eq curr next).1
  have hiff : (Argument.make curr next).valueIsEmbedded = true ↔
      startsWith curr ['-', '-'] = true ∧ '=' ∈ curr := by
    rw [hm]; simp [find_eq_isSome_iff]
  have hval : ((Argument.make curr next).value' i).2.1
      = (if (Argument.make curr next).valueIsEmbedded then i else i + 1) := rfl
  refine ⟨hiff, hval, ?_⟩
  rw [hval]
  by_cases hemb : (Argument.make curr next).valueIsEmbedded = true
  · rw [if_pos hemb]
    exact iff_of_true rfl (hiff.mp hemb)
  · rw [if_neg hemb]
    exact iff_of_false (by omega) (fun hr => hemb (hiff.mpr hr))

--========================= CLAIM THEOREMS: TABLE =========================--

/-- C3: for a non-empty table, the computed width of any column `c` is the
content width (the column minimum widened by every cell present in the
column) clamped down to `maxWidth[c]` whenever `maxWidth[c] > 0`; when
`maxWidth[c] = N > 0` and the longest cell of the column exceeds `N`, the
computed width is exactly `N`; and the alignment step never truncates a
cell's text, which always survives as an infix of the padded cell. -/
theorem table_column_width_clamped (t : Table) (c : Nat)
    (hne : t.rows ≠ []) (hc : c < t.calculate_column_widths.length) :
    (t.calculate_column_widths.getD c 0 =
      if 0 < t.maxColumnWidths.getD c 0
      then min (colContentWidth t.rows (t.minColumnWidths.getD c 0) c)
               (t.maxColumnWidths.getD c 0)
      else colContentWidth t.rows (t.minColumnWidths.getD c 0) c) ∧
    (0 < t.maxColumnWidths.getD c 0 →
      t.maxColumnWidths.getD c 0 < maxCellLen t.rows c →
      t.calculate_column_widths.getD c 0 = t.maxColumnWidths.getD c 0) ∧
    (∀ (a : Align) (w : Nat) (text : Str), text <:+: alignCell a w text) := by
  have hemp : t.rows.isEmpty = false := by
    cases hr : t.rows
    · exact absurd hr hne
    · rfl
  have hcalc : t.calculate_column_widths
      = clampCells (t.rows.foldl updateWidthsWithRow t.minColumnWidths)
          t.maxColumnWidths := by
    unfold Table.calculate_column_widths
    rw [hemp]
    rfl
  have hlen : c < (t.rows.foldl updateWidthsWithRow t.minColumnWidths).length := by
    rw [hcalc, length_clampCells] at hc
    exact hc
  have hpre : (t.rows.foldl updateWidthsWithRow t.minColumnWidths).getD c 0
      = colContentWidth t.rows (t.minColumnWidths.getD c 0) c :=
    getD_foldl_update t.rows t.minColumnWidths c
  have hformula : t.calculate_column_widths.getD c 0 =
      if 0 < t.maxColumnWidths.getD c 0
      then min (colContentWidth t.rows (t.minColumnWidths.getD c 0) c)
               (t.maxColumnWidths.getD c 0)
      else colContentWidth t.rows (t.minColumnWidths.getD c 0) c := by
    rw [hcalc, getD_clampCells]
    by_cases hpos : 0 < t.maxColumnWidths.getD c 0
    · have hml : c < t.maxColumnWidths.length := by
        by_contra hx
        push_neg at hx
        rw [List.getD_eq_default _ _ hx] at hpos
        omega
      rw [if_pos ⟨hlen, hml, hpos⟩, if_pos hpos, hpre]
    · rw [if_neg (fun hcon => hpos hcon.2.2), if_neg hpos, hpre]
  refine ⟨hformula, ?_, ?_⟩
  · intro hpos hlong
    obtain ⟨row, hrow, hcr, hlr⟩ :=
      exists_long_cell t.rows c (t.maxColumnWidths.getD c 0) (le_of_lt hpos) hlong
    have hge : t.maxColumnWidths.getD c 0
        ≤ colContentWidth t.rows (t.minColumnWidths.getD c 0) c :=
      (le_of_lt hlr).trans (cell_le_colContentWidth t.rows _ c row hrow hcr)
    rw [hformula, if_pos hpos]
    exact min_eq_right hge
  · intro a w text
    cases a with
    | LEFT => exact ⟨[], List.replicate (w - text.length) ' ', by simp [alignCell]⟩
    | RIGHT => exact ⟨List.replicate (w - text.length) ' ', [], by simp [alignCell]⟩
    | CENTER =>
        exact ⟨List.replicate ((w - text.length) / 2) ' ',
          List.replicate ((w - text.length) - (w - text.length) / 2) ' ',
          by simp [alignCell]⟩

/-- C3 witness: a column whose only cell `aaa` exceeds the maximum width 2 is
clamped to width exactly 2. -/
theorem table_column_width_clamped_witness :
    tClamp.calculate_column_widths.getD 0 0 = 2 ∧
    ['a','a','a'] <:+: alignCell Align.LEFT 5 ['a','a','a'] := by
  have h := table_column_width_clamped tClamp 0 (by decide) (by decide)
  constructor
  · have h2 := h.2.1 (by decide) (by decide)
    rw [h2]
    decide
  · exact h.2.2 Align.LEFT 5 ['a','a','a']

/-- C4 counterexample: printing the spec scenario table does not produce the
two lines displayed in the spec (`a    bb  ccc` with two spaces between `bb`
and `ccc`, and `dddd e` with two trailing spaces): with column 1 of width 2
the code emits a single space between `bb` and `ccc` and a single trailing
space after `e`. -/
theorem table_scenario_counterexample :
    tScenario.print ≠ ("a    bb  ccc\n" ++ "dddd e  \n").toList := by
  decide

/-- C4 amended: the scenario table prints `a    bb ccc` (one space between
`bb` and `ccc`) and `dddd e ` (one trailing space), each line terminated by
a newline, with column widths 4, 2 and 3 and no third cell synthesized for
the two-cell row. -/
theorem table_scenario_amended :
    tScenario.print = ("a    bb ccc\n" ++ "dddd e \n").toList ∧
    tScenario.calculate_column_widths = [4, 2, 3] := by
  decide

/-- C7: printing appends to the stream and is byte-identical on both of two
consecutive calls, and the output is computed freshly from the current rows
and configuration alone — any two tables agreeing on rows, alignments,
width bounds and colorizer print identically, whatever their cached column
count or construction history. -/
theorem table_print_pure (t t' : Table) (out : Str)
    (hrows : t'.rows = t.rows) (hal : t'.columnAlignments = t.columnAlignments)
    (hmin : t'.minColumnWidths = t.minColumnWidths)
    (hmax : t'.maxColumnWidths = t.maxColumnWidths)
    (hcol : t'.colorizer = t.colorizer) :
    t.printTo (t.printTo out) = out ++ t.print ++ t.print ∧ t'.print = t.print := by
  constructor
  · rfl
  · have hcalc : t'.calculate_column_widths = t.calculate_column_widths := by
      unfold Table.calculate_column_widths
      rw [hrows, hmin, hmax]
    unfold Table.print
    rw [hrows, hcol, hal, hcalc]

/-- C7 witness: the one-row table and its variant with a different cached
column count print identically, and two consecutive prints append two
identical copies. -/
theorem table_print_pure_witness :
    tPure.printTo (tPure.printTo []) = [] ++ tPure.print ++ tPure.print ∧
    tPure'.print = tPure.print :=
  table_print_pure tPure tPure' [] rfl rfl rfl rfl rfl

/-- C9: a cell whose computed column width is zero or negative — including a
cell beyond the computed width vector — is printed verbatim with no padding
or alignment, still passed through the colorizer. -/
theorem table_zero_width_verbatim (colorizer : Option (Nat → Str → Str))
    (widths : List Int) (aligns : List Align) (i : Nat) (text : Str)
    (h : widths.getD i 0 ≤ 0) :
    cellText colorizer widths aligns i text = applyColorizer colorizer i text := by
  have hw : (if i < widths.length then widths.getD i 0 else 0) ≤ 0 := by
    split
    · exact h
    · exact le_refl 0
  simp only [cellText]
  rw [if_pos hw]

/-- C9 witness: a cell beyond an empty width vector is printed verbatim after
passing through the installed colorizer. -/
theorem table_zero_width_verbatim_witness :
    cellText (some (fun _ s => '[' :: s)) [] [] 0 ['x'] = '[' :: ['x'] := by
  rw [table_zero_width_verbatim (some (fun _ s => '[' :: s)) [] [] 0 ['x'] (by decide)]
  rfl
